import Mathlib

/-!
Verification of the cmon51 debug adapter's session protocol engine
(`src/parselst.ts`, runtime class `Runtime`, and the DAP session in
`Cmon51DebugSession`), shallowly embedded in Lean 4.

The embedding models:
* the Matcher Queue (`runNextMatcher`, the `onData` listener, the
  registration/drain logic of `matchResponse` / `matchUntilInteractive`);
* the listing-file parser `parseLst`;
* the pure windowing part of `Runtime.disassemble`;
* the result shaping of `Runtime.readVariable`, `Runtime.setBreakpoints`
  and `Runtime.terminate` / `Cmon51DebugSession.terminateRequest`.

JavaScript regular-expression matching is modelled by explicit functions
`String -> Option MatchArray`; the concrete patterns the code uses
(substring tests such as `/> /` and `/\r/`, anchored hex tests, the
listing-line pattern) are translated individually.
-/

namespace Cmon51

/-- Decides whether the character list `pat` is an initial segment of `l`
(model of a regex literal matching at the current position). -/
def leadsWith : List Char → List Char → Bool
  | [], _ => true
  | _ :: _, [] => false
  | p :: ps, c :: cs => p == c && leadsWith ps cs

/-- Decides whether `pat` occurs contiguously anywhere inside `l`
(model of an unanchored JS regex literal search). -/
def listContains (pat : List Char) : List Char → Bool
  | [] => leadsWith pat []
  | c :: cs => leadsWith pat (c :: cs) || listContains pat cs

/-- Substring occurrence test on strings: `containsStr s pat` holds when the
literal `pat` occurs in `s`; models `s.match(/pat/) !== null` for a
literal-only JS regex. -/
def containsStr (s pat : String) : Bool := listContains pat.toList s.toList

/-- Model of a JS `RegExpMatchArray` restricted to the fields the runtime
reads: the matched text (`match[0]`), the named capture groups
(`match.groups`, `none` marking a group that participated in no
alternative), and the original input string (`match.input`). -/
structure MatchArray where
  matched : String
  groups : List (String × Option String)
  input : String
deriving DecidableEq

/-- Looks up a named capture group, as `match.groups.name` does. -/
def MatchArray.group (m : MatchArray) (name : String) : Option String :=
  match m.groups.lookup name with
  | some v => v
  | none => none

/-- The static pattern `Runtime.interactive = /> /`: a plain substring
search for the prompt marker. -/
def interactivePat (s : String) : Option MatchArray :=
  if containsStr s "> " then some ⟨"> ", [], s⟩ else none

/-- The static pattern `Runtime.carriageReturn = /\r/`: a plain substring
search for a carriage return. -/
def carriageReturnPat (s : String) : Option MatchArray :=
  if containsStr s "\r" then some ⟨"\r", [], s⟩ else none

/-- A queued expectation (source type `Matcher = SingleMatcher | MultiMatcher`).
The `mid` field models the identity of the `resolve` callback captured in the
promise executor, so that resolution order can be observed. -/
inductive Matcher where
  | single (mid : Nat) (pattern : String → Option MatchArray)
  | multi (mid : Nat) (pattern : String → Option MatchArray) (found : List MatchArray)

/-- The promise identity of a queued matcher. -/
def Matcher.mid : Matcher → Nat
  | .single i _ => i
  | .multi i _ _ => i

/-- A resolved expectation: which promise resolved and with what value
(`resolve(match)` for single matchers, `resolve(found)` for multi). -/
inductive Resolution where
  | single (rid : Nat) (m : MatchArray)
  | multi (rid : Nat) (ms : List MatchArray)
deriving DecidableEq

/-- The promise identity of a resolution. -/
def Resolution.rid : Resolution → Nat
  | .single i _ => i
  | .multi i _ => i

/-- The mutable runtime state the matcher machinery touches:
`Runtime.matchers` and `Runtime.outputBuffer`. -/
structure RuntimeState where
  matchers : List Matcher
  outputBuffer : List String

/-- Tail of `runNextMatcher` for a head multi-matcher after the echo-skip
branch: test the interactive prompt, then the content pattern
(source lines 366-385). -/
def runMultiTail (i : Nat) (pat : String → Option MatchArray)
    (found : List MatchArray) (rest : List Matcher) (input : String) :
    List Matcher × Option Resolution :=
  match interactivePat input with
  | some _ => (rest, some (.multi i found.tail))
  | none =>
    match pat input with
    | some m => (.multi i pat (found ++ [m]) :: rest, none)
    | none => (.multi i pat found :: rest, none)

/-- `Runtime.runNextMatcher` (source lines 354-387): tests one incoming
string against the head of the matcher queue only.  Returns the updated
queue and the resolution, if any; the source's boolean return value is
`true` exactly when a resolution is produced.  The source only calls it
with a non-empty queue; on an empty queue it is the identity here. -/
def runNextMatcher : List Matcher → String → List Matcher × Option Resolution
  | [], _ => ([], none)
  | .multi i pat found :: rest, input =>
    if found.isEmpty then
      match carriageReturnPat input with
      | some cr => (.multi i pat [cr] :: rest, none)
      | none => runMultiTail i pat found rest input
    else runMultiTail i pat found rest input
  | .single i pat :: rest, input =>
    match pat input with
    | some m => (rest, some (.single i m))
    | none => (.single i pat :: rest, none)

/-- The `onData` listener body after sanitisation (source lines 135-139):
run the head matcher if any expectation is queued, otherwise push the chunk
onto the output backlog. -/
def onData (st : RuntimeState) (data : String) : RuntimeState × Option Resolution :=
  if st.matchers.isEmpty then
    ({ st with outputBuffer := st.outputBuffer ++ [data] }, none)
  else
    let p := runNextMatcher st.matchers data
    ({ st with matchers := p.1 }, p.2)

/-- The backlog drain loop shared by `matchResponse` and
`matchUntilInteractive` (source lines 406-410 and 433-437): shift buffered
chunks through `runNextMatcher` until the buffer is empty or a matcher is
consumed, in which case draining stops at once. -/
def drainLoop : List Matcher → List String → List Matcher × List String × List Resolution
  | ms, [] => (ms, [], [])
  | ms, b :: rest =>
    match runNextMatcher ms b with
    | (msn, some r) => (msn, rest, [r])
    | (msn, none) => drainLoop msn rest

/-- Registration of one expectation (the promise executor bodies of
`matchResponse` and `matchUntilInteractive`): push the matcher, then drain
the backlog. -/
def register (st : RuntimeState) (m : Matcher) : RuntimeState × List Resolution :=
  let t := drainLoop (st.matchers ++ [m]) st.outputBuffer
  (⟨t.1, t.2.1⟩, t.2.2)

/-- Feeds a sequence of sanitized output chunks through the `onData`
listener, collecting resolutions in the order they occur. -/
def feedAll (st : RuntimeState) : List String → RuntimeState × List Resolution
  | [] => (st, [])
  | c :: cs =>
    let p := onData st c
    let q := feedAll p.1 cs
    (q.1, p.2.toList ++ q.2)

/-- An externally observable event: an operation registers an expectation,
or the pseudo-terminal delivers an output chunk. -/
inductive QEvent where
  | register (m : Matcher)
  | data (chunk : String)

/-- One event step of the session protocol engine. -/
def step (st : RuntimeState) : QEvent → RuntimeState × List Resolution
  | .register m => register st m
  | .data c =>
    let p := onData st c
    (p.1, p.2.toList)

/-- Runs a sequence of events, collecting resolutions in temporal order. -/
def runEvents (st : RuntimeState) : List QEvent → RuntimeState × List Resolution
  | [] => (st, [])
  | e :: es =>
    let p := step st e
    let q := runEvents p.1 es
    (q.1, p.2 ++ q.2)

/-- The promise identities of a matcher queue, in queue order. -/
def idsOf (ms : List Matcher) : List Nat := ms.map Matcher.mid

/-- The promise identities registered by an event sequence, in order. -/
def registeredIds : List QEvent → List Nat
  | [] => []
  | .register m :: es => m.mid :: registeredIds es
  | .data _ :: es => registeredIds es

/-- The backlog invariant of the Matcher Queue: while at least one
expectation is queued, the output backlog is empty. -/
def Inv (st : RuntimeState) : Prop := st.matchers ≠ [] → st.outputBuffer = []

/-- Concrete single-matcher pattern `/A =/` (first register-dump line),
used to exercise the queue on concrete streams. -/
def patA (s : String) : Option MatchArray :=
  if containsStr s "A =" then some ⟨"A =", [], s⟩ else none

/-- Concrete single-matcher pattern `/R0=/` (second register-dump line),
used to exercise the queue on concrete streams. -/
def patR (s : String) : Option MatchArray :=
  if containsStr s "R0=" then some ⟨"R0=", [], s⟩ else none

/-! The listing-file parser `parseLst` (source lines 11-46). -/

/-- Membership of a character in the regex class `[0-9A-F]`. -/
def isHexUpper (c : Char) : Bool :=
  (('0' ≤ c) && (c ≤ '9')) || (('A' ≤ c) && (c ≤ 'F'))

/-- Membership of a character in the regex class `\d`. -/
def isDec (c : Char) : Bool := ('0' ≤ c) && (c ≤ '9')

/-- JS `String.prototype.split("\r\n")`: splits on non-overlapping,
leftmost occurrences of the two-character separator. -/
def splitCRLF : List Char → List (List Char)
  | [] => [[]]
  | '\r' :: '\n' :: rest => [] :: splitCRLF rest
  | c :: rest =>
    match splitCRLF rest with
    | [] => [[c]]
    | l :: ls => (c :: l) :: ls

/-- Attempts the listing-line regex
`/(?<address>[0-9A-F]{4}) (?:[0-9A-F]*)? *(?<line>\d*)/` at the current
position: it can succeed exactly when four `[0-9A-F]` characters followed
by a space start here (every later regex component may match empty).
Returns the `address` group and the remainder after the space. -/
def tryHere : List Char → Option (String × List Char)
  | a :: b :: c :: d :: e :: rest =>
    if isHexUpper a && isHexUpper b && isHexUpper c && isHexUpper d && (e == ' ')
    then some (String.mk [a, b, c, d], rest)
    else none
  | _ => none

/-- Leftmost-position search for the listing-line regex, as JS
`line.match(pattern)` performs. -/
def findLst : List Char → Option (String × List Char)
  | [] => none
  | c :: cs =>
    match tryHere (c :: cs) with
    | some r => some r
    | none => findLst cs

/-- The `line` capture group of the listing-line regex: after the mandatory
space, `(?:[0-9A-F]*)?` greedily eats a hex run, ` *` greedily eats spaces,
and `\d*` captures the following digit run (no backtracking is ever needed
because every component can match empty). -/
def lineGroup (rest : List Char) : List Char :=
  ((rest.dropWhile isHexUpper).dropWhile (fun c => c == ' ')).takeWhile isDec

/-- JS `parseInt(s)` on a base-10 numeral: `none` models `NaN` (in
particular for the empty string); otherwise the value of the leading digit
run. -/
def jsParseIntDec (s : String) : Option Int :=
  let ds := s.toList.takeWhile isDec
  if ds.isEmpty then none
  else some (ds.foldl (fun a c => a * 10 + ((c.toNat : Int) - ('0'.toNat : Int))) 0)

/-- Matching one listing line: the `address` group and the parsed `line`
group (`parseInt(match.groups.line)`, `none` for `NaN`). -/
def lstMatch (l : List Char) : Option (String × Option Int) :=
  match findLst l with
  | some (addr, rest) => some (addr, jsParseIntDec (String.mk (lineGroup rest)))
  | none => none

/-- JS strict inequality `line !== lastLine - 1` where either side may be
`NaN` (`none`): `NaN` compares unequal to everything, itself included. -/
def jsNeqPred (line lastLine : Option Int) : Bool :=
  match line, lastLine with
  | some a, some b => a ≠ b - 1
  | _, _ => true

/-- JS strict inequality `lastLine !== -1` with `NaN` as `none`. -/
def jsNeqNeg1 (lastLine : Option Int) : Bool :=
  match lastLine with
  | some v => v ≠ -1
  | none => true

/-- The backward scan of `parseLst` (source lines 25-38), processing the
listing's lines last-to-first: on each regex match, stop if the line number
breaks the descending run, otherwise prepend the address and remember the
line number.  Returns the collected map and the final `lastLine`. -/
def parseLstRev : List String → Option Int → List String → List String × Option Int
  | [], lastLine, acc => (acc, lastLine)
  | l :: rest, lastLine, acc =>
    match lstMatch l.toList with
    | none => parseLstRev rest lastLine acc
    | some (address, lineNo) =>
      if jsNeqNeg1 lastLine && jsNeqPred lineNo lastLine then (acc, lastLine)
      else parseLstRev rest lineNo (address :: acc)

/-- The front-padding loop of `parseLst` (source lines 40-42): while
`lastLine > 1`, prepend `"0000"`; a `NaN` counter (from `parseInt("")`)
never enters the loop.  Written in closed form: the loop body runs
`lastLine - 1` times. -/
def padFront (lastLine : Option Int) (acc : List String) : List String :=
  match lastLine with
  | none => acc
  | some n => List.replicate (n - 1).toNat "0000" ++ acc

/-- `parseLst` applied to the text of the `.lst` file (source lines 11-46):
split on CRLF, scan backwards collecting the trailing run of consecutive
line numbers, then pad the front with `"0000"` entries. -/
def parseLst (data : String) : List String :=
  let lines := (splitCRLF data.toList).map String.mk
  match parseLstRev lines.reverse (some (-1)) [] with
  | (lineMap, lastLine) => padFront lastLine lineMap

/-! The pure windowing part of `Runtime.disassemble` (source lines 257-299)
and its small JS arithmetic helpers. -/

/-- A disassembled instruction record (source interface `Instruction`). -/
structure Instruction where
  address : String
  instruction : String
  line : Int
deriving DecidableEq

/-- Hexadecimal digit character as JS `Number.prototype.toString(16)`
produces it (lowercase). -/
def hexChar (n : Nat) : Char :=
  if n < 10 then Char.ofNat ('0'.toNat + n) else Char.ofNat ('a'.toNat + (n - 10))

/-- Fuelled hex-digit accumulation for `toString(16)`; the fuel `n + 1`
always suffices. -/
def natToHexAux : Nat → Nat → List Char → List Char
  | 0, _, acc => acc
  | fuel + 1, n, acc =>
    if n < 16 then hexChar n :: acc
    else natToHexAux fuel (n / 16) (hexChar (n % 16) :: acc)

/-- JS `n.toString(16)` for a non-negative integer. -/
def natToHex (n : Nat) : String := String.mk (natToHexAux (n + 1) n [])

/-- JS `n.toString(16)` on an integer: negative values render as a minus
sign followed by the hex digits of the magnitude (so `(-2).toString(16)`
is `"-2"`). -/
def jsToStringHex (i : Int) : String :=
  if i < 0 then "-" ++ natToHex i.natAbs else natToHex i.toNat

/-- The numeric value of a `[0-9A-F]` character. -/
def hexVal (c : Char) : Int :=
  if ('0' ≤ c) && (c ≤ '9') then (c.toNat : Int) - ('0'.toNat : Int)
  else (c.toNat : Int) - ('A'.toNat : Int) + 10

/-- JS `parseInt(s, 16)` restricted to the uppercase-hex strings the
runtime feeds it (capture groups of `[0-9A-F]+` patterns and `parseLst`
addresses): `none` models `NaN`, otherwise the value of the leading
uppercase-hex run. -/
def jsParseIntHex (s : String) : Option Int :=
  let ds := s.toList.takeWhile isHexUpper
  if ds.isEmpty then none
  else some (ds.foldl (fun a c => a * 16 + hexVal c) 0)

/-- JS `Array.prototype.indexOf`: first index of the element, `-1` when
absent. -/
def jsIndexOf (l : List Int) (a : Int) : Int :=
  match l.findIdx? (fun x => x == a) with
  | some i => (i : Int)
  | none => -1

/-- JS `Array.prototype.lastIndexOf`: last index of the element, `-1` when
absent (used on `this.lineMap`). -/
def jsLastIndexOf (l : List String) (a : String) : Int :=
  match l.reverse.findIdx? (fun x => x == a) with
  | some i => (l.length : Int) - 1 - (i : Int)
  | none => -1

/-- First-occurrence-order deduplication with an explicit seen-set, as JS
`Array.from(new Set(xs))` produces. -/
def dedupAux : List String → List String → List String
  | [], _ => []
  | a :: rest, seen =>
    if a ∈ seen then dedupAux rest seen else a :: dedupAux rest (a :: seen)

/-- `Runtime.setBreakpoints` line 157: the deduplicated instruction list
`Array.from(new Set(this.lineMap)).map((address) => parseInt(address, 16))`;
`parseLst` only ever produces four-digit uppercase-hex entries, so the
`NaN` default is never reached. -/
def instructionListOf (lineMap : List String) : List Int :=
  (dedupAux lineMap []).map (fun a => (jsParseIntHex a).getD 0)

/-- Step 1 of `Runtime.disassemble` (source lines 259-267): resolve a
memory address to a base instruction index, extrapolating below zero and
past the last known address. -/
def baseInstr (instructionList : List Int) (address : Int) : Int :=
  let endAddress := instructionList.getLastD 0
  if address < 0 then address
  else if address > endAddress then
    (instructionList.length : Int) - 1 + address - endAddress
  else jsIndexOf instructionList address

/-- The number of iterations of the synthetic-padding loop
`for (let i = startInstr; i < 0 && i < startInstr + instructionCount; i++)`
(source line 271). -/
def syntheticCount (startInstr instructionCount : Int) : Nat :=
  (min (-startInstr) instructionCount).toNat

/-- The synthetic no-op records of `Runtime.disassemble` (source lines
270-277): one per negative index of the window, index `-1` labelled
distinctly. -/
def syntheticRecords (startInstr instructionCount : Int) : List Instruction :=
  (List.range (syntheticCount startInstr instructionCount)).map fun (k : Nat) =>
    { address := if startInstr + (k : Int) ≠ -1
                  then jsToStringHex (startInstr + (k : Int)) else "-1 "
      instruction := "00        nop"
      line := -1 }

/-- The device command of `Runtime.disassemble` (source lines 280-291):
`none` when the whole window is negative, otherwise the two hex arguments
of the `u` command (start address and instruction count). -/
def debuggerCommand (instructionList : List Int) (startInstr instructionCount : Int) :
    Option (String × String) :=
  if startInstr + instructionCount > 0 then
    let endAddress := instructionList.getLastD 0
    let debuggerStartAddress : Int :=
      if startInstr < 0 then 0
      else if startInstr ≥ (instructionList.length : Int) then
        endAddress + startInstr - ((instructionList.length : Int) - 1)
      else instructionList.getD startInstr.toNat 0
    let debuggerInstructionCount : Int :=
      if startInstr < 0 then instructionCount + startInstr else instructionCount
    some (jsToStringHex debuggerStartAddress, jsToStringHex debuggerInstructionCount)
  else none

/-- Shaping of one device disassembly line (source lines 294-298): keep the
captured address and text, and reverse-map the address to a source line
when it lies within the mapped program (`NaN` from `parseInt` fails the
comparison, giving `-1`). -/
def deviceInstruction (lineMap : List String) (endAddress : Int) (p : String × String) :
    Instruction :=
  { address := p.1
    instruction := p.2
    line :=
      match jsParseIntHex p.1 with
      | some v => if v ≤ endAddress then jsLastIndexOf lineMap p.1 else -1
      | none => -1 }

/-- The pure content of `Runtime.disassemble` (source lines 257-299): given
the cached map and instruction list, the request parameters, and the
address/text pairs the device would answer with, produce the instruction
records and the device command issued (`none` when no command is sent, in
which case the device output is never consulted). -/
def disassemblePure (lineMap : List String) (instructionList : List Int)
    (address instructionCount instructionOffset : Int)
    (deviceOutput : List (String × String)) :
    List Instruction × Option (String × String) :=
  let endAddress := instructionList.getLastD 0
  let startInstr := baseInstr instructionList address + instructionOffset
  let cmd := debuggerCommand instructionList startInstr instructionCount
  let device :=
    match cmd with
    | some _ => deviceOutput.map (deviceInstruction lineMap endAddress)
    | none => []
  (syntheticRecords startInstr instructionCount ++ device, cmd)

/-! `Runtime.setBreakpoints` address selection (source lines 158-161),
`Runtime.readVariable` (source lines 230-239) and `Runtime.terminate` /
`Cmon51DebugSession.terminateRequest` (source lines 305-318 and 162-172). -/

/-- The address chosen for one requested breakpoint line (source lines
159-161): `line < lineMap.length ? lineMap[line] : lineMap[lineMap.length]`,
with JS out-of-bounds indexing modelled as `none` (`undefined`). -/
def breakpointAddress (lineMap : List String) (line : Nat) : Option String :=
  if line < lineMap.length then lineMap.get? line else lineMap.get? lineMap.length

/-- The addresses `Runtime.setBreakpoints` computes for its requested
lines (source lines 158-161). -/
def setBreakpointsAddresses (lineMap : List String) (lines : List Nat) :
    List (Option String) :=
  lines.map (breakpointAddress lineMap)

/-- Whether a string is a non-empty run of `[0-9A-F]` characters; exactly
when the anchored alternative `^[0-9A-F]+$` of the `readVariable` pattern
matches the whole input. -/
def hexUpperNonempty (s : String) : Bool :=
  !s.toList.isEmpty && s.toList.all isHexUpper

/-- The `readVariable` response pattern `/(?<data>^[0-9A-F]+$)|(?:\r)/`:
the anchored first alternative can only match the entire input (the `^`
succeeds only at position 0 without the multiline flag), else the second
alternative matches at the first carriage return, leaving the `data`
group unset. -/
def dataOrCrMatch (s : String) : Option MatchArray :=
  if hexUpperNonempty s then some ⟨s, [("data", some s)], s⟩
  else if containsStr s "\r" then some ⟨"\r", [("data", none)], s⟩
  else none

/-- The branch of `Runtime.readVariable` on the resolved match (source
lines 234-238): a truthy `data` group is returned, otherwise the raw
`result.input` text is thrown. -/
def readVariableResult (m : MatchArray) : Except String String :=
  match m.group "data" with
  | some d => if d.toList.isEmpty then Except.error m.input else Except.ok d
  | none => Except.error m.input

/-- `Runtime.readVariable` at the level of the response text the value
matcher resolves on: `none` while the pattern has not matched (the matcher
keeps waiting), otherwise the success or failure the caller observes. -/
def readVariable (s : String) : Option (Except String String) :=
  (dataOrCrMatch s).map readVariableResult

/-- `Runtime.terminate` (source lines 305-318): reject with the exit code
when it is non-zero, resolve otherwise. -/
def terminateResult (exitCode : Int) : Except Int Unit :=
  if exitCode ≠ 0 then Except.error exitCode else Except.ok ()

/-- The exit code `Cmon51DebugSession.terminateRequest` surfaces in its
`ExitedEvent` (source lines 162-172 of the session file): `0` unless the
awaited `terminate` rejects, in which case the rejection payload. -/
def terminateRequestSurfacedCode (exitCode : Int) : Int :=
  match terminateResult exitCode with
  | Except.error e => e
  | Except.ok _ => 0

/-! Helper lemmas about the Matcher Queue. -/

/-- One `runNextMatcher` step on a head multi-matcher past the echo branch
conserves the queued promise identities: the resolution (if any) followed
by the surviving queue carries exactly the previous identities. -/
theorem runMultiTail_ids (i : Nat) (pat : String → Option MatchArray)
    (found : List MatchArray) (rest : List Matcher) (input : String) :
    ((runMultiTail i pat found rest input).2.toList.map Resolution.rid)
      ++ idsOf (runMultiTail i pat found rest input).1
      = i :: idsOf rest := by
  unfold runMultiTail
  cases hi : interactivePat input with
  | some v => simp [idsOf, Resolution.rid]
  | none =>
    cases hp : pat input with
    | some m => simp [idsOf, Matcher.mid]
    | none => simp [idsOf, Matcher.mid]

/-- One `runNextMatcher` step conserves the queued promise identities:
the resolution (if any) followed by the surviving queue carries exactly
the previous identities, in order. -/
theorem runNextMatcher_ids (ms : List Matcher) (input : String) :
    ((runNextMatcher ms input).2.toList.map Resolution.rid)
      ++ idsOf (runNextMatcher ms input).1 = idsOf ms := by
  match ms with
  | [] => simp [runNextMatcher, idsOf]
  | .single i pat :: rest =>
    simp only [runNextMatcher]
    cases hp : pat input with
    | some m => simp [idsOf, Matcher.mid, Resolution.rid]
    | none => simp [idsOf, Matcher.mid]
  | .multi i pat found :: rest =>
    simp only [runNextMatcher]
    by_cases hf : found.isEmpty
    · simp only [hf, if_true]
      cases hc : carriageReturnPat input with
      | some cr => simp [idsOf, Matcher.mid]
      | none => simpa [idsOf, Matcher.mid] using runMultiTail_ids i pat found rest input
    · simp only [hf, if_false]
      simpa [idsOf, Matcher.mid] using runMultiTail_ids i pat found rest input

/-- One `runNextMatcher` step conserves queue length plus resolution
count. -/
theorem runNextMatcher_len (ms : List Matcher) (input : String) :
    (runNextMatcher ms input).2.toList.length + ((runNextMatcher ms input).1).length
      = ms.length := by
  have h := congrArg List.length (runNextMatcher_ids ms input)
  simpa [idsOf] using h

/-- The drain loop conserves the queued promise identities. -/
theorem drainLoop_ids (buf : List String) (ms : List Matcher) :
    ((drainLoop ms buf).2.2.map Resolution.rid) ++ idsOf (drainLoop ms buf).1
      = idsOf ms := by
  induction buf generalizing ms with
  | nil => simp [drainLoop]
  | cons b rest ih =>
    have hids := runNextMatcher_ids ms b
    unfold drainLoop
    cases hr : runNextMatcher ms b with
    | mk msn ro =>
      rw [hr] at hids
      cases ro with
      | some r => simpa using hids
      | none =>
        simp only
        rw [ih msn]
        simpa using hids

/-- If the drain loop leaves the buffer non-empty, it stopped because it
consumed (popped) exactly one matcher. -/
theorem drainLoop_leftover (buf : List String) (ms : List Matcher)
    (h : (drainLoop ms buf).2.1 ≠ []) :
    ((drainLoop ms buf).1).length + 1 = ms.length := by
  induction buf generalizing ms with
  | nil => simp [drainLoop] at h
  | cons b rest ih =>
    have hlen := runNextMatcher_len ms b
    unfold drainLoop at h ⊢
    cases hr : runNextMatcher ms b with
    | mk msn ro =>
      rw [hr] at hlen h
      cases ro with
      | some r =>
        simp at hlen ⊢
        omega
      | none =>
        simp at hlen
        simp only at h ⊢
        rw [ih msn h]
        omega

/-- Registration preserves the backlog invariant. -/
theorem register_inv (st : RuntimeState) (m : Matcher) (h : Inv st) :
    Inv (register st m).1 := by
  intro hne
  by_contra hbuf
  have hbuf2 : (drainLoop (st.matchers ++ [m]) st.outputBuffer).2.1 ≠ [] := by
    simpa [register] using hbuf
  by_cases hm : st.matchers = []
  · have hlen := drainLoop_leftover st.outputBuffer (st.matchers ++ [m]) hbuf2
    rw [hm] at hlen
    simp only [List.nil_append, List.length_cons, List.length_nil] at hlen
    have h0 : ((drainLoop [m] st.outputBuffer).1).length = 0 := by omega
    exact hne (by simpa [register, hm] using List.eq_nil_of_length_eq_zero h0)
  · have hbe : st.outputBuffer = [] := h hm
    exact hbuf (by simp [register, hbe, drainLoop])

/-- The live listener preserves the backlog invariant. -/
theorem onData_inv (st : RuntimeState) (d : String) (h : Inv st) :
    Inv (onData st d).1 := by
  unfold onData
  by_cases hm : st.matchers.isEmpty
  · simp only [hm, if_true]
    intro hne
    exact absurd (List.isEmpty_iff.mp hm) hne
  · simp only [hm, if_false]
    intro _
    exact h (fun hnil => hm (by simp [hnil]))

/-- Every event step preserves the backlog invariant. -/
theorem step_inv (st : RuntimeState) (e : QEvent) (h : Inv st) :
    Inv (step st e).1 := by
  cases e with
  | register m => exact register_inv st m h
  | data c => exact onData_inv st c h

/-- Any event sequence preserves the backlog invariant. -/
theorem runEvents_inv (evs : List QEvent) (st : RuntimeState) (h : Inv st) :
    Inv (runEvents st evs).1 := by
  induction evs generalizing st with
  | nil => simpa [runEvents] using h
  | cons e es ih => exact ih (step st e).1 (step_inv st e h)

/-- One event step conserves promise identities, appending the identity a
registration introduces. -/
theorem step_ids (st : RuntimeState) (e : QEvent) :
    ((step st e).2.map Resolution.rid) ++ idsOf (step st e).1.matchers
      = idsOf st.matchers ++ registeredIds [e] := by
  cases e with
  | register m =>
    have h := drainLoop_ids st.outputBuffer (st.matchers ++ [m])
    simp only [step, register, registeredIds]
    simpa [idsOf] using h
  | data c =>
    simp only [step, onData, registeredIds]
    by_cases hm : st.matchers.isEmpty
    · simp [hm, idsOf]
    · have h := runNextMatcher_ids st.matchers c
      simp only [hm, if_false]
      simpa using h

/-- While no expectation is queued, feeding chunks only appends them to
the backlog, in arrival order. -/
theorem feedAll_no_matchers (chunks buf : List String) :
    feedAll ⟨[], buf⟩ chunks = (⟨[], buf ++ chunks⟩, []) := by
  induction chunks generalizing buf with
  | nil => simp [feedAll]
  | cons c cs ih =>
    simp only [feedAll, onData, List.isEmpty_nil, if_true]
    rw [ih (buf ++ [c])]
    simp

/-- Registering one expectation against a pending backlog behaves exactly
like registering it first and then receiving the backlogged chunks live,
oldest first: same resolutions, same final state. -/
theorem register_feed (B : List String) (m : Matcher) :
    register ⟨[], B⟩ m = feedAll ⟨[m], []⟩ B := by
  induction B generalizing m with
  | nil => simp [register, drainLoop, feedAll]
  | cons b rest ih =>
    have hlen := runNextMatcher_len [m] b
    simp only [register, drainLoop, List.nil_append, feedAll, onData,
      List.isEmpty_cons, if_false]
    cases hr : runNextMatcher [m] b with
    | mk msn ro =>
      rw [hr] at hlen
      cases ro with
      | some r =>
        have hnil : msn = [] := by simpa using hlen
        subst hnil
        simp [feedAll_no_matchers rest []]
      | none =>
        have h1 : msn.length = 1 := by simpa using hlen
        obtain ⟨m2, hm2⟩ := List.length_eq_one.mp h1
        subst hm2
        have h2 := ih m2
        simp only [register, List.nil_append] at h2
        simpa using h2

/-- After the command echo has been recorded, a multi-matcher accumulates
one match per content line and resolves at the first prompt-marker line
with the recorded echo dropped and the accumulated matches delivered. -/
theorem feedAll_multi_run (i : Nat) (pat : String → Option MatchArray)
    (e : MatchArray) (promptLine : String)
    (hP : containsStr promptLine "> " = true) (contents : List String) :
    ∀ acc : List MatchArray,
      (∀ c ∈ contents, (pat c).isSome = true ∧ containsStr c "> " = false) →
      feedAll ⟨[Matcher.multi i pat (e :: acc)], []⟩ (contents ++ [promptLine])
        = (⟨[], []⟩, [Resolution.multi i (acc ++ contents.filterMap pat)]) := by
  induction contents with
  | nil =>
    intro acc _
    simp [feedAll, onData, runNextMatcher, runMultiTail, interactivePat, hP]
  | cons c cs ih =>
    intro acc hC
    obtain ⟨hsome, hnp⟩ := hC c (List.mem_cons_self c cs)
    obtain ⟨mc, hmc⟩ := Option.isSome_iff_exists.mp hsome
    have hrec := ih (acc ++ [mc]) (fun x hx => hC x (List.mem_cons_of_mem c hx))
    simp only [List.cons_append, feedAll, onData, List.isEmpty_cons, if_false,
      Bool.false_eq_true]
    simp only [runNextMatcher, List.isEmpty_cons, Bool.false_eq_true, if_false]
    unfold runMultiTail
    simp only [interactivePat, hnp, Bool.false_eq_true, if_false, hmc]
    simp only [List.append_eq, List.cons_append, List.nil_append]
    rw [hrec]
    simp [List.filterMap_cons, hmc, List.append_assoc]

/-! Helper lemmas about `parseLst`. -/

/-- A successful position attempt of the listing-line regex yields a
four-character uppercase-hex address group. -/
theorem tryHere_hex4 (l : List Char) (addr : String) (rest : List Char)
    (h : tryHere l = some (addr, rest)) :
    addr.length = 4 ∧ addr.toList.all isHexUpper = true := by
  match l with
  | [] => simp [tryHere] at h
  | [a] => simp [tryHere] at h
  | [a, b] => simp [tryHere] at h
  | [a, b, c] => simp [tryHere] at h
  | [a, b, c, d] => simp [tryHere] at h
  | a :: b :: c :: d :: e :: r2 =>
    simp only [tryHere] at h
    by_cases hc : (isHexUpper a && isHexUpper b && isHexUpper c && isHexUpper d
        && (e == ' ')) = true
    · rw [if_pos hc] at h
      simp only [Option.some.injEq, Prod.mk.injEq] at h
      obtain ⟨ha, hr⟩ := h
      subst ha
      constructor
      · rfl
      · have ht : (String.mk [a, b, c, d]).toList = [a, b, c, d] := rfl
        rw [ht]
        simp only [Bool.and_eq_true] at hc
        simp only [List.all_cons, List.all_nil, Bool.and_eq_true]
        tauto
    · rw [if_neg hc] at h
      exact absurd h (by simp)

/-- The leftmost regex search inherits the address-group shape from the
position attempt that succeeds. -/
theorem findLst_hex4 (l : List Char) (addr : String) (rest : List Char)
    (h : findLst l = some (addr, rest)) :
    addr.length = 4 ∧ addr.toList.all isHexUpper = true := by
  induction l with
  | nil => simp [findLst] at h
  | cons c cs ih =>
    unfold findLst at h
    cases ht : tryHere (c :: cs) with
    | some r =>
      rw [ht] at h
      simp only [Option.some.injEq] at h
      exact tryHere_hex4 (c :: cs) addr rest (h ▸ ht)
    | none =>
      rw [ht] at h
      exact ih h

/-- Every address the backward scan prepends is a four-character
uppercase-hex string, provided the entries already accumulated are. -/
theorem parseLstRev_hex4 (ls : List String) (lastLine : Option Int)
    (acc : List String)
    (hacc : ∀ s ∈ acc, s.length = 4 ∧ s.toList.all isHexUpper = true) :
    ∀ s ∈ (parseLstRev ls lastLine acc).1,
      s.length = 4 ∧ s.toList.all isHexUpper = true := by
  induction ls generalizing lastLine acc with
  | nil => simpa [parseLstRev] using hacc
  | cons l rest ih =>
    unfold parseLstRev
    cases hm : lstMatch l.toList with
    | none => exact ih lastLine acc hacc
    | some p =>
      obtain ⟨address, lineNo⟩ := p
      by_cases hb : (jsNeqNeg1 lastLine && jsNeqPred lineNo lastLine) = true
      · simp only [hb, if_true]
        exact hacc
      · simp only [hb, if_false]
        apply ih
        intro s hs
        rcases List.mem_cons.mp hs with hs1 | hs2
        · subst hs1
          unfold lstMatch at hm
          cases hf : findLst l.toList with
          | none => rw [hf] at hm; simp at hm
          | some q =>
            obtain ⟨addr2, rest2⟩ := q
            rw [hf] at hm
            simp only [Option.some.injEq, Prod.mk.injEq] at hm
            exact hm.1 ▸ findLst_hex4 l.toList addr2 rest2 hf
        · exact hacc s hs2

/-- Front padding only adds the literal entry `"0000"`. -/
theorem padFront_mem (lastLine : Option Int) (acc : List String) (s : String)
    (h : s ∈ padFront lastLine acc) : s = "0000" ∨ s ∈ acc := by
  cases lastLine with
  | none => exact Or.inr h
  | some n =>
    unfold padFront at h
    rcases List.mem_append.mp h with h1 | h2
    · exact Or.inl (List.eq_of_mem_replicate h1)
    · exact Or.inr h2

/-! Claim theorems. -/

/-- C1: the claimed chunk-boundary independence fails in the code.  The
sanitized stream `"A = 1\r\nR0= 2\r\n"`, whose line-split satisfies the
queued patterns `/A =/` then `/R0=/` in order, resolves both expectations
when delivered as two line-aligned chunks, but delivered as a single chunk
it resolves only the first expectation (the whole chunk is consumed by the
head matcher and the second stays pending), so the outcome depends on the
chunking. -/
theorem C1_chunk_boundary_dependence :
    ((feedAll ⟨[Matcher.single 1 patA, Matcher.single 2 patR], []⟩
        ["A = 1\r\nR0= 2\r\n"]).2.map Resolution.rid = [1]
      ∧ idsOf (feedAll ⟨[Matcher.single 1 patA, Matcher.single 2 patR], []⟩
        ["A = 1\r\nR0= 2\r\n"]).1.matchers = [2])
    ∧ (feedAll ⟨[Matcher.single 1 patA, Matcher.single 2 patR], []⟩
        ["A = 1\r\n", "R0= 2\r\n"]).2.map Resolution.rid = [1, 2] := by
  decide

/-- C2: the claimed clamp to the final map entry fails in the code.  For a
requested line at or past the map's length, `setBreakpoints` reads
`lineMap[lineMap.length]`, which is out of bounds (`undefined`, here
`none`) rather than the final entry `"0004"`. -/
theorem C2_clamp_is_out_of_bounds :
    setBreakpointsAddresses ["0000", "0002", "0004"] [5] = [none]
    ∧ breakpointAddress ["0000", "0002", "0004"] 5 = none
    ∧ ["0000", "0002", "0004"].getLast? = some "0004" := by
  decide

/-- C3 counterexample: on the instruction set
`[0x8000 (line 0), 0x8003 (line 1), 0x8006 (line 2)]` with request address
`0x8000`, offset `-2`, count `4`, the device command the code issues is
`u 0 2` — its start address is the literal `0`, not the first
instruction's address `0x8000` as the claim states. -/
theorem C3_device_address_counterexample :
    (disassemblePure ["8000", "8003", "8006"]
        (instructionListOf ["8000", "8003", "8006"]) 32768 4 (-2) []).2
      = some ("0", "2")
    ∧ some (("0" : String), ("2" : String))
        ≠ some (jsToStringHex 32768, jsToStringHex 2) := by
  decide

/-- C3 (amended): on the instruction set
`[0x8000 (line 0), 0x8003 (line 1), 0x8006 (line 2)]` with request address
`0x8000`, offset `-2`, count `4`, the code produces the two synthetic
no-op records for indices `-2` and `-1` (each with `line = -1`), followed
by records built from whatever pairs the device answers, and issues a
device command covering only the non-negative portion of the window
(2 instructions) but starting at the literal device address `0`, not at
the first instruction's address `0x8000`. -/
theorem C3_window_amended (ds : List (String × String)) :
    disassemblePure ["8000", "8003", "8006"]
        (instructionListOf ["8000", "8003", "8006"]) 32768 4 (-2) ds
      = (⟨"-2", "00        nop", -1⟩ :: ⟨"-1 ", "00        nop", -1⟩ ::
          ds.map (deviceInstruction ["8000", "8003", "8006"] 32774),
         some ("0", "2")) := by
  rfl

/-- C4: expectations resolve exactly once and strictly in registration
order.  Over any event sequence (registrations interleaved with incoming
chunks) from any starting state, the promise identities of the resolutions
produced, in temporal order, followed by the identities still queued, are
exactly the initially queued identities followed by the registered ones:
only the head is ever consumed, so no later expectation can resolve before
an earlier one, and none resolves twice. -/
theorem C4_fifo_exactly_once (st : RuntimeState) (evs : List QEvent) :
    ((runEvents st evs).2.map Resolution.rid) ++ idsOf (runEvents st evs).1.matchers
      = idsOf st.matchers ++ registeredIds evs := by
  induction evs generalizing st with
  | nil => simp [runEvents, registeredIds]
  | cons e es ih =>
    have hs := step_ids st e
    have hr := ih (step st e).1
    simp only [runEvents]
    rw [List.map_append, List.append_assoc, hr, ← List.append_assoc, hs,
      List.append_assoc]
    congr 1
    cases e <;> simp [registeredIds]

/-- C5: a multi-expectation fed one echoed command line (a line containing
a carriage return), then any number of content lines that match its
pattern and do not contain the prompt marker, then a line containing the
interactive-prompt marker, resolves exactly at that prompt line with
exactly the content matches: the sole echoed first line is excluded from
the result. -/
theorem C5_multi_expectation (i : Nat) (pat : String → Option MatchArray)
    (echo : String) (contents : List String) (promptLine : String)
    (hEcho : containsStr echo "\r" = true)
    (hContents : ∀ c ∈ contents, (pat c).isSome = true ∧ containsStr c "> " = false)
    (hPrompt : containsStr promptLine "> " = true) :
    feedAll ⟨[Matcher.multi i pat []], []⟩ (echo :: (contents ++ [promptLine]))
      = (⟨[], []⟩, [Resolution.multi i (contents.filterMap pat)]) := by
  have h := feedAll_multi_run i pat ⟨"\r", [], echo⟩ promptLine hPrompt contents []
    hContents
  simp only [feedAll, onData, List.isEmpty_cons, Bool.false_eq_true, if_false,
    runNextMatcher, List.isEmpty_nil, if_true, carriageReturnPat, hEcho]
  simpa using h

/-- C5 witness: a concrete run with one echoed line, one content line and
one prompt line. -/
theorem C5_multi_expectation_witness :
    feedAll ⟨[Matcher.multi 7 patA []], []⟩ ("brl\r" :: (["A = 5\r"] ++ ["> "]))
      = (⟨[], []⟩, [Resolution.multi 7 (["A = 5\r"].filterMap patA)]) :=
  C5_multi_expectation 7 patA "brl\r" ["A = 5\r"] "> " (by decide) (by decide)
    (by decide)

/-- C6: the Output Backlog is order-preserving and empties on registration.
First, the backlog invariant — the backlog is empty whenever at least one
expectation is queued — is preserved by every event sequence.  Second,
registering an expectation against a pending backlog is indistinguishable
from registering it first and then receiving the backlogged chunks live,
oldest first in original arrival order: same resolutions, same final
state. -/
theorem C6_backlog_order_and_invariant :
    (∀ (st : RuntimeState) (evs : List QEvent), Inv st → Inv (runEvents st evs).1)
    ∧ (∀ (B : List String) (m : Matcher), register ⟨[], B⟩ m = feedAll ⟨[m], []⟩ B) :=
  ⟨fun st evs h => runEvents_inv evs st h, register_feed⟩

/-- C6 witness: the invariant holds of the empty state and is carried
through a concrete event sequence. -/
theorem C6_backlog_witness :
    Inv ⟨[], []⟩
    ∧ Inv (runEvents ⟨[], []⟩
        [QEvent.data "x", QEvent.register (Matcher.single 0 patA)]).1 :=
  ⟨fun _ => rfl,
   C6_backlog_order_and_invariant.1 ⟨[], []⟩
     [QEvent.data "x", QEvent.register (Matcher.single 0 patA)] (fun _ => rfl)⟩

/-- C7: when the response to a register read is a (whole-input) hexadecimal
value, `readVariable` returns the captured hex string; when it is not and
the response is an ordinary device line (containing a carriage return, as
an error line is), the operation fails carrying exactly the raw unmatched
response text. -/
theorem C7_readVariable_result (s : String) :
    (hexUpperNonempty s = true → readVariable s = some (Except.ok s))
    ∧ (hexUpperNonempty s = false → containsStr s "\r" = true →
        readVariable s = some (Except.error s)) := by
  constructor
  · intro h
    have hne : s.toList.isEmpty = false := by
      cases hh : s.toList.isEmpty with
      | false => rfl
      | true =>
        unfold hexUpperNonempty at h
        rw [hh] at h
        simp at h
    have hne2 : ¬ s.data = [] := by
      intro hd
      rw [show s.toList = s.data from rfl, hd] at hne
      simp at hne
    simp [readVariable, dataOrCrMatch, h, readVariableResult, MatchArray.group,
      List.lookup, hne, hne2]
  · intro h hcr
    simp [readVariable, dataOrCrMatch, h, hcr, readVariableResult,
      MatchArray.group, List.lookup]

/-- C7 witness: a hex response round-trips; a non-hex error line is raised
as the raw response text. -/
theorem C7_readVariable_witness :
    (hexUpperNonempty "5F" = true ∧ readVariable "5F" = some (Except.ok "5F"))
    ∧ (hexUpperNonempty "Bad register\r" = false
        ∧ containsStr "Bad register\r" "\r" = true
        ∧ readVariable "Bad register\r" = some (Except.error "Bad register\r")) :=
  ⟨⟨by decide, (C7_readVariable_result "5F").1 (by decide)⟩,
   ⟨by decide, by decide,
    (C7_readVariable_result "Bad register\r").2 (by decide) (by decide)⟩⟩

/-- C8: `terminate` fails exactly on a non-zero exit code, carrying that
code verbatim, and succeeds on zero; the exit code `terminateRequest`
surfaces in its exited event equals the process exit code in both cases. -/
theorem C8_exit_code_verbatim (c : Int) :
    terminateRequestSurfacedCode c = c
    ∧ terminateResult c = (if c = 0 then Except.ok () else Except.error c) := by
  by_cases h : c = 0 <;>
    simp [terminateRequestSurfacedCode, terminateResult, h]

/-- C9: when the whole requested window is negative
(`startIndex + count ≤ 0` with a non-negative count), no device command is
issued — in particular at the exact boundary `startIndex + count = 0` —
and the result is exactly `instructionCount` synthetic no-op records in
increasing index order, each with `line = -1`. -/
theorem C9_all_negative_window (lm : List String) (il : List Int)
    (a count off : Int) (ds : List (String × String))
    (h1 : baseInstr il a + off + count ≤ 0) (h2 : 0 ≤ count) :
    (disassemblePure lm il a count off ds).2 = none
    ∧ (disassemblePure lm il a count off ds).1 =
        (List.range count.toNat).map (fun k =>
          { address := if baseInstr il a + off + (k : Int) ≠ -1
                        then jsToStringHex (baseInstr il a + off + (k : Int))
                        else "-1 "
            instruction := "00        nop"
            line := -1 }) := by
  have hcmd : debuggerCommand il (baseInstr il a + off) count = none := by
    unfold debuggerCommand
    rw [if_neg (by omega : ¬ baseInstr il a + off + count > 0)]
  have hcnt : syntheticCount (baseInstr il a + off) count = count.toNat := by
    unfold syntheticCount
    rw [min_eq_right (by omega : count ≤ -(baseInstr il a + off))]
  constructor
  · simp [disassemblePure, hcmd]
  · simp only [disassemblePure, hcmd, List.append_nil]
    unfold syntheticRecords
    rw [hcnt]

/-- C9 witness: one instruction at `0x8000`, request address `0x8000`,
offset `-4`, count `4` — the exact boundary `startIndex + count = 0`: no
device command, four synthetic records, the device output ignored. -/
theorem C9_all_negative_window_witness :
    baseInstr [32768] 32768 + (-4) + 4 ≤ 0
    ∧ (0 : Int) ≤ 4
    ∧ (disassemblePure ["8000"] [32768] 32768 4 (-4) [("DEAD", "x")]).2 = none
    ∧ (disassemblePure ["8000"] [32768] 32768 4 (-4) [("DEAD", "x")]).1 =
        (List.range (4 : Int).toNat).map (fun k =>
          { address := if baseInstr [32768] 32768 + (-4) + (k : Int) ≠ -1
                        then jsToStringHex (baseInstr [32768] 32768 + (-4) + (k : Int))
                        else "-1 "
            instruction := "00        nop"
            line := -1 }) :=
  ⟨by decide, by decide,
   (C9_all_negative_window ["8000"] [32768] 32768 4 (-4) [("DEAD", "x")]
      (by decide) (by decide)).1,
   (C9_all_negative_window ["8000"] [32768] 32768 4 (-4) [("DEAD", "x")]
      (by decide) (by decide)).2⟩

/-- C10: every element of the array `parseLst` returns is a four-character
uppercase hexadecimal string — extracted entries are `[0-9A-F]{4}` capture
groups, and front padding entries are the literal `"0000"`. -/
theorem C10_parseLst_entries (data s : String) (h : s ∈ parseLst data) :
    s.length = 4 ∧ s.toList.all isHexUpper = true := by
  simp only [parseLst] at h
  cases hp : parseLstRev ((splitCRLF data.toList).map String.mk).reverse
      (some (-1)) [] with
  | mk lineMap lastLine =>
    rw [hp] at h
    simp only at h
    rcases padFront_mem lastLine lineMap s h with h1 | h2
    · subst h1
      exact ⟨by decide, by decide⟩
    · have hs : s ∈ (parseLstRev ((splitCRLF data.toList).map String.mk).reverse
          (some (-1)) []).1 := by
        rw [hp]
        exact h2
      exact parseLstRev_hex4 _ (some (-1)) []
        (fun x hx => absurd hx (List.not_mem_nil x)) s hs

/-- C10 witness: a concrete listing produces an entry, and it has the
claimed shape. -/
theorem C10_parseLst_entries_witness :
    "8000" ∈ parseLst "8000 74 1\r\n8002 00 2\r\n"
    ∧ ("8000" : String).length = 4
    ∧ ("8000" : String).toList.all isHexUpper = true :=
  ⟨by decide, C10_parseLst_entries "8000 74 1\r\n8002 00 2\r\n" "8000" (by decide)⟩

end Cmon51
